import Mathlib

/-!
Verification development for the tool-augmented chat orchestration loops of
the OnBehalf repository.  The embedded code comes from two scripts:

* `submodules/demo/mcp_client/mcp-client/client.py` — class `MCPClient`
  (`process_query`, `_build_api_messages`, `chat_loop`);
* `submodules/demo/chat_with_gpt/chat_with_gpt.py` — class `ChatSession`
  (`handle_tool_calls`, `chat`) and the `main` REPL.

Messages are Python dicts with a `role` key; we embed them as a tagged union.
External collaborators (the OpenAI completion endpoint, `json.loads`, the MCP
`call_tool` transport, the Vertex image generator) are passed in as oracle
functions; a Python exception raised by a collaborator is modelled as the
`Except.error` branch of the oracle's result.
-/

set_option autoImplicit false

namespace OnBehalf

/-- One entry of an assistant message's `tool_calls` list: the dict
`{"id": tc.id, "type": "function", "function": {"name": ..., "arguments": ...}}`
(the constant `"type": "function"` field is omitted). -/
structure ToolCall where
  id : String
  name : String
  arguments : String
deriving DecidableEq, Repr

/-- A conversation message, as stored in `self.messages`: a dict with a
`role` key.  An assistant dict carries a `tool_calls` key only sometimes;
`tool_calls = none` embeds absence of the key, `tool_calls = some l` its
presence with list `l`.  `content` of an assistant message may be `None`
(embedded as `none`). -/
inductive Msg where
  | user (content : String)
  | system (content : String)
  | assistant (content : Option String) (tool_calls : Option (List ToolCall))
  | tool (tool_call_id : String) (name : String) (content : String)
deriving DecidableEq, Repr

/-- Python truthiness of an optional list: `None` and `[]` are falsy. -/
def optListTruthy (o : Option (List ToolCall)) : Bool :=
  match o with
  | some (_ :: _) => true
  | _ => false

/-- Python truthiness of an optional string: `None` and `""` are falsy. -/
def optStrTruthy (o : Option String) : Bool :=
  match o with
  | some s => s ≠ ""
  | none => false

/-- The tool-call ids declared by a message (nonempty only for an assistant
message whose dict has a `tool_calls` key). -/
def declaredIds : Msg → List String
  | .assistant _ (some tcs) => tcs.map ToolCall.id
  | _ => []

/-- Whether `m` is a tool-result message answering call id `id`. -/
def answersId (m : Msg) (id : String) : Bool :=
  match m with
  | .tool tid _ _ => tid == id
  | _ => false

/-- The call id of a tool-result message, if `m` is one. -/
def toolIdOf : Msg → Option String
  | .tool tid _ _ => some tid
  | _ => none

/-- The tool-call ids of the tool-result messages of a list, in order. -/
def toolIds (msgs : List Msg) : List String :=
  msgs.filterMap toolIdOf

/-! ### Embedding of Python's `dict` for `pending_tool_calls`

`pending_tool_calls` maps a tool-call id to a boolean.  A Python dict keeps
insertion order; assignment overwrites the value of an existing key in place
and appends a fresh key at the end.  We embed it as an association list with
exactly this update rule. -/

/-- `d[k]` lookup: first entry with the key, if any. -/
def dictLookup (d : List (String × Bool)) (k : String) : Option Bool :=
  match d with
  | [] => none
  | (k', v) :: rest => if k' = k then some v else dictLookup rest k

/-- `d[k] = v` assignment: overwrite the first entry with the key, else
append at the end. -/
def dictSet (d : List (String × Bool)) (k : String) (v : Bool) : List (String × Bool) :=
  match d with
  | [] => [(k, v)]
  | (k', v') :: rest => if k' = k then (k, v) :: rest else (k', v') :: dictSet rest k v

/-! ### `MCPClient._build_api_messages` -/

/-- One iteration of the `for msg in self.messages` loop of
`_build_api_messages`: state is `(api_messages, pending_tool_calls)`. -/
def buildStep (st : List Msg × List (String × Bool)) (m : Msg) :
    List Msg × List (String × Bool) :=
  match m with
  | .user _ => (st.1 ++ [m], st.2)
  | .system _ => (st.1 ++ [m], st.2)
  | .assistant _ tcsOpt =>
      let pending :=
        match tcsOpt with
        | some tcs => tcs.foldl (fun d tc => dictSet d tc.id false) st.2
        | none => st.2
      (st.1 ++ [m], pending)
  | .tool tid _ _ =>
      if (dictLookup st.2 tid).isSome then (st.1 ++ [m], dictSet st.2 tid true)
      else st

/-- The message filter applied when some tool calls are missing responses:
keep `msg` unless it is an assistant message whose `tool_calls` key is
present and names a missing id. -/
def keepMsg (missing : List String) (m : Msg) : Bool :=
  match m with
  | .assistant _ (some tcs) => !(tcs.any (fun tc => missing.contains tc.id))
  | _ => true

/-- The `api_messages` list after the `for msg in self.messages` loop of
`_build_api_messages` (before the missing-responses filter). -/
def buildApiRaw (msgs : List Msg) : List Msg :=
  (msgs.foldl buildStep ([], [])).1

/-- The `pending_tool_calls` dict after the loop of `_build_api_messages`. -/
def buildPending (msgs : List Msg) : List (String × Bool) :=
  (msgs.foldl buildStep ([], [])).2

/-- The `missing_responses` list of `_build_api_messages`:
`[id for id, has_response in pending_tool_calls.items() if not has_response]`. -/
def missingResponses (msgs : List Msg) : List String :=
  ((buildPending msgs).filter (fun p => !p.2)).map Prod.fst

/-- `MCPClient._build_api_messages`, returning the snapshot sent to the API
together with the `missing_responses` list (nonempty exactly when the
`Warning: Missing tool responses` diagnostic is printed and the filter
removing assistant messages with unanswered tool calls runs). -/
def build_api_messages (msgs : List Msg) : List Msg × List String :=
  if (missingResponses msgs).isEmpty then (buildApiRaw msgs, missingResponses msgs)
  else ((buildApiRaw msgs).filter (keepMsg (missingResponses msgs)), missingResponses msgs)

/-- The state of an `MCPClient` object, as far as `_build_api_messages` is
concerned: the `self.messages` attribute.  `_build_api_messages` reads
`self.messages` and appends `msg.copy()`s to a fresh local list; it assigns
no attribute, so its state-threaded translation returns the object state
unchanged next to its return value. -/
structure MCPClientState where
  messages : List Msg
deriving DecidableEq, Repr

/-- `MCPClient._build_api_messages` as a method: object state in, object
state out (unchanged, since the method body only reads `self.messages`),
next to the returned snapshot and `missing_responses` diagnostic. -/
def build_api_messagesS (st : MCPClientState) : MCPClientState × (List Msg × List String) :=
  (st, build_api_messages st.messages)

/-! ### `chat_with_gpt.py`: `ChatSession.handle_tool_calls` and `ChatSession.chat`

The OpenAI completion endpoint is an oracle `List Msg → CompletionResponse`;
the Vertex image generator together with the `json.loads` of the arguments is
an oracle `ToolCall → Except String String` (`.error` embeds a raised
exception, caught by the `try` of `handle_tool_calls`). -/

/-- A completion response message (`response.choices[0].message`): `content`
may be `None`, `tool_calls` may be `None` or a list. -/
structure CompletionResponse where
  content : Option String
  tool_calls : Option (List ToolCall)
deriving DecidableEq, Repr

/-- Naive embedding of `json.dumps` of a one-field string dict, as used for
tool-result payloads (`json.dumps({"image_path": ...})` and
`json.dumps({"error": ...})`). -/
def jsonField (key value : String) : String :=
  "\x7b\"" ++ key ++ "\": \"" ++ value ++ "\"\x7d"

/-- `ChatSession.handle_tool_calls`.  Returns the `tool_results` list and,
as an observation trace, the list of tool calls actually dispatched to the
image generator, in dispatch order.  A call whose `function.name` is not
`"generate_image"` is only logged (`print("Unknown tool: ...")`): no result
is appended for it.  A failing dispatch (argument parsing or generation
raising) is caught and becomes a result with an error payload. -/
def handle_tool_calls (exec : ToolCall → Except String String)
    (tool_calls : List ToolCall) : List Msg × List ToolCall :=
  tool_calls.foldl
    (fun acc tc =>
      if tc.name = "generate_image" then
        match exec tc with
        | .ok image_path =>
            (acc.1 ++ [Msg.tool tc.id "generate_image" (jsonField "image_path" image_path)],
             acc.2 ++ [tc])
        | .error e =>
            (acc.1 ++ [Msg.tool tc.id "generate_image" (jsonField "error" e)],
             acc.2 ++ [tc])
      else acc)
    ([], [])

/-- The observable outcome of one `ChatSession.chat` turn: the final
`self.messages`, the returned string, the payloads of the completion
requests made (in order), and the tool calls dispatched (in order). -/
structure ChatResult where
  messages : List Msg
  answer : String
  requests : List (List Msg)
  execs : List ToolCall
deriving DecidableEq, Repr

/-- `ChatSession.chat`: append the user message, request a completion
(`c1`, with the tool schema offered), append the assistant message; if it
carries tool calls, run `handle_tool_calls`, append the results, request a
second completion (`c2`, without tools) and append and return its message's
content; otherwise return the first message's content. -/
def chat (c1 c2 : List Msg → CompletionResponse) (exec : ToolCall → Except String String)
    (msgs0 : List Msg) (user_input : String) : ChatResult :=
  let msgs1 := msgs0 ++ [Msg.user user_input]
  let resp := c1 msgs1
  let msgs2 := msgs1 ++ [Msg.assistant resp.content resp.tool_calls]
  if optListTruthy resp.tool_calls then
    let hr := handle_tool_calls exec (resp.tool_calls.getD [])
    let msgs3 := msgs2 ++ hr.1
    let resp2 := c2 msgs3
    let msgs4 := msgs3 ++ [Msg.assistant resp2.content resp2.tool_calls]
    { messages := msgs4, answer := resp2.content.getD "",
      requests := [msgs1, msgs3], execs := hr.2 }
  else
    { messages := msgs2, answer := resp.content.getD "",
      requests := [msgs1], execs := [] }

/-! ### `client.py`: `MCPClient.process_query`

The two OpenAI calls are oracles returning `Except` (`.error` = raised
exception); `json.loads` of the argument string and `session.call_tool` are
oracles likewise.  The `try` block of `process_query` is embedded as a
function into `TryResult`: a raised exception carries the state accumulated
so far, since the appends made before the raise persist. -/

/-- The mutable state touched inside `process_query`: `self.messages` and
the local `final_text`, plus two observation traces: the payloads of the
completion requests made and the `(tool_name, tool_args)` pairs passed to
`session.call_tool`, each in order. -/
structure PQState where
  messages : List Msg
  final_text : List String
  requests : List (List Msg)
  execs : List (String × String)
deriving DecidableEq, Repr

/-- Outcome of a Python `try` body: normal completion or a raised exception,
each with the state reached. -/
inductive TryResult where
  | ok (st : PQState)
  | exn (st : PQState) (e : String)
deriving DecidableEq, Repr

/-- The `for tool_call in assistant_message.tool_calls` loop of
`process_query`: parse the arguments, call the tool, append the
`[Calling tool ...]` line to `final_text` and the tool message to
`self.messages`; a raise at any point aborts the loop. -/
def toolLoop (parseArgs : String → Except String String)
    (callTool : String → String → Except String String) :
    List ToolCall → PQState → TryResult
  | [], st => .ok st
  | tc :: rest, st =>
    match parseArgs tc.arguments with
    | .error e => .exn st e
    | .ok args =>
      let st1 : PQState := { st with execs := st.execs ++ [(tc.name, args)] }
      match callTool tc.name args with
      | .error e => .exn st1 e
      | .ok result =>
        let st2 : PQState := { st1 with
          final_text := st1.final_text ++
            ["[Calling tool " ++ tc.name ++ " with args " ++ args ++ "]"],
          messages := st1.messages ++ [Msg.tool tc.id tc.name result] }
        toolLoop parseArgs callTool rest st2

/-- Lines 139–157 of `client.py`: rebuild the API messages with the new
tool responses, make the second completion request, append and report the
final response. -/
def pqSecondPhase (c2 : List Msg → Except String CompletionResponse)
    (st4 : PQState) : TryResult :=
  let api2 := (build_api_messages st4.messages).1
  let st5 : PQState := { st4 with requests := st4.requests ++ [api2] }
  match c2 api2 with
  | .error e => .exn st5 e
  | .ok resp2 =>
    let st6 : PQState := { st5 with
      messages := st5.messages ++ [Msg.assistant (some (resp2.content.getD "")) none] }
    let st7 : PQState :=
      if optStrTruthy resp2.content then
        { st6 with final_text := st6.final_text ++ [resp2.content.getD ""] }
      else st6
    .ok st7

/-- Lines 121–157 of `client.py`: execute every tool call of the batch,
then run the second completion round. -/
def pqToolPhase (c2 : List Msg → Except String CompletionResponse)
    (parseArgs : String → Except String String)
    (callTool : String → String → Except String String)
    (batch : List ToolCall) (st3 : PQState) : TryResult :=
  match toolLoop parseArgs callTool batch st3 with
  | .exn st e => .exn st e
  | .ok st4 => pqSecondPhase c2 st4

/-- Lines 96–118 of `client.py`: store the first assistant response (with
its `tool_calls` key only when the response carries a truthy list) and
append its content, if truthy, to `final_text`. -/
def pqAfterFirst (resp : CompletionResponse) (st1 : PQState) : PQState :=
  let assistant_data := Msg.assistant (some (resp.content.getD ""))
    (if optListTruthy resp.tool_calls then resp.tool_calls else none)
  let st2 : PQState := { st1 with messages := st1.messages ++ [assistant_data] }
  if optStrTruthy resp.content then
    { st2 with final_text := st2.final_text ++ [resp.content.getD ""] }
  else st2

/-- The `try` block of `process_query` (lines 84–157 of `client.py`). -/
def pqTry (c1 c2 : List Msg → Except String CompletionResponse)
    (parseArgs : String → Except String String)
    (callTool : String → String → Except String String)
    (st0 : PQState) : TryResult :=
  let api := (build_api_messages st0.messages).1
  let st1 : PQState := { st0 with requests := st0.requests ++ [api] }
  match c1 api with
  | .error e => .exn st1 e
  | .ok resp =>
    let st3 := pqAfterFirst resp st1
    if optListTruthy resp.tool_calls then
      pqToolPhase c2 parseArgs callTool (resp.tool_calls.getD []) st3
    else .ok st3

/-- State at entry of the `try` of `process_query`: the user message was
just appended to `self.messages`; `final_text = []`. -/
def pqInit (msgs0 : List Msg) (query : String) : PQState :=
  { messages := msgs0 ++ [Msg.user query], final_text := [], requests := [], execs := [] }

/-- The `except Exception as e` handler of `process_query`: append
`"Error processing query: " + str(e)` to `final_text`. -/
def pqFinal : TryResult → PQState
  | .ok st => st
  | .exn st e => { st with final_text := st.final_text ++ ["Error processing query: " ++ e] }

/-- `MCPClient.process_query`: returns the final state (whose `messages` is
the new `self.messages`) and the returned string `"\n".join(final_text)`. -/
def process_query (c1 c2 : List Msg → Except String CompletionResponse)
    (parseArgs : String → Except String String)
    (callTool : String → String → Except String String)
    (msgs0 : List Msg) (query : String) : PQState × String :=
  let st := pqFinal (pqTry c1 c2 parseArgs callTool (pqInit msgs0 query))
  (st, String.intercalate "\n" st.final_text)

/-! ### The interactive REPLs -/

/-- What one REPL iteration does with the line read from the user. -/
inductive ReplAction where
  | quit
  | cleared
  | printHistory
  | printDebug
  | processQuery (query : String)
deriving DecidableEq, Repr

/-- Python's `str.lower()`, character by character (ASCII view). -/
def pyLower (s : String) : String := ⟨s.data.map Char.toLower⟩

/-- Python's `str.strip()`: drop whitespace from both ends. -/
def pyStrip (s : String) : String :=
  ⟨((s.data.dropWhile Char.isWhitespace).reverse.dropWhile Char.isWhitespace).reverse⟩

/-- One iteration of `MCPClient.chat_loop`: the input is stripped, then
compared (lowercased) against `quit`, `clear`, `history`, `debug`, in that
order; anything else is processed as a query.  Returns the dispatch outcome
and the `self.messages` after the command handling (empty after `clear`). -/
def chat_loop_iter (rawInput : String) (msgs : List Msg) : ReplAction × List Msg :=
  let query := pyStrip rawInput
  if pyLower query = "quit" then (.quit, msgs)
  else if pyLower query = "clear" then (.cleared, [])
  else if pyLower query = "history" then (.printHistory, msgs)
  else if pyLower query = "debug" then (.printDebug, msgs)
  else (.processQuery query, msgs)

/-- One iteration of the `while True` loop of `chat_with_gpt.main`: the
(unstripped) input is lowercased and tested for membership in
`["exit", "quit", "bye"]`; anything else becomes a chat turn. -/
def mainLoopAction (user_input : String) : ReplAction :=
  if ["exit", "quit", "bye"].contains (pyLower user_input) then .quit
  else .processQuery user_input

/-! ### Specification-side notions used to state the claims -/

/-- The tool-result message `handle_tool_calls` builds for a
`generate_image` call, success or failure. -/
def genImageResult (exec : ToolCall → Except String String) (tc : ToolCall) : Msg :=
  match exec tc with
  | .ok image_path => Msg.tool tc.id "generate_image" (jsonField "image_path" image_path)
  | .error e => Msg.tool tc.id "generate_image" (jsonField "error" e)

/-- The payload of the second completion request of a `chat` turn whose
first response carried tool calls: prior history, user message, assistant
message, tool results. -/
def chatReq2 (c1 : List Msg → CompletionResponse) (exec : ToolCall → Except String String)
    (msgs0 : List Msg) (input : String) : List Msg :=
  msgs0 ++ [Msg.user input] ++
    [Msg.assistant (c1 (msgs0 ++ [Msg.user input])).content
      (c1 (msgs0 ++ [Msg.user input])).tool_calls] ++
    (handle_tool_calls exec ((c1 (msgs0 ++ [Msg.user input])).tool_calls.getD [])).1

/-- The state reached by a `try` body, whether it completed or raised. -/
def tryState : TryResult → PQState
  | .ok st => st
  | .exn st _ => st

/-- The tool-call batch of the first completion response of a
`process_query` run (empty if that response carried none or the request
raised). -/
def pqFirstToolCalls (c1 : List Msg → Except String CompletionResponse)
    (msgs0 : List Msg) (query : String) : List ToolCall :=
  match c1 ((build_api_messages (msgs0 ++ [Msg.user query])).1) with
  | .ok resp => resp.tool_calls.getD []
  | .error _ => []

/-- `DeclAt p id i`: position `i` of `p` holds an assistant message
declaring tool-call id `id`. -/
def DeclAt (p : List Msg) (id : String) (i : Nat) : Prop :=
  ∃ h : i < p.length, id ∈ declaredIds p[i]

/-- `AnsAfter p id i`: some position of `p` strictly after `i` holds a
tool-result message answering `id`. -/
def AnsAfter (p : List Msg) (id : String) (i : Nat) : Prop :=
  ∃ j, i < j ∧ ∃ h : j < p.length, answersId p[j] id = true

/-- The invariant maintained by the loop of `_build_api_messages` over the
processed prefix `p`, about the `pending_tool_calls` dict: keys are exactly
the ids declared in `p`; a `true` value means every declaration of the id is
answered strictly later in `p`; a `false` value means some declaration of
the id is never answered later in `p`. -/
def PendingInv (p : List Msg) (pending : List (String × Bool)) : Prop :=
  (pending.map Prod.fst).Nodup ∧
  (∀ id, (dictLookup pending id).isSome ↔ ∃ i, DeclAt p id i) ∧
  (∀ id, dictLookup pending id = some true → ∀ i, DeclAt p id i → AnsAfter p id i) ∧
  (∀ id, dictLookup pending id = some false →
    ∃ i, DeclAt p id i ∧ ∀ j, (h : j < p.length) → i < j → answersId p[j] id = false)

/-! ### Lemmas about the dict embedding -/

theorem dictLookup_set_self (d : List (String × Bool)) (k : String) (v : Bool) :
    dictLookup (dictSet d k v) k = some v := by
  induction d with
  | nil => simp [dictSet, dictLookup]
  | cons e rest ih =>
    by_cases h : e.1 = k
    · simp [dictSet, dictLookup, h]
    · simp [dictSet, dictLookup, h, ih]

theorem dictLookup_set_ne (d : List (String × Bool)) (k : String) (v : Bool)
    (q : String) (h : q ≠ k) :
    dictLookup (dictSet d k v) q = dictLookup d q := by
  have hkq : ¬k = q := fun hk => h hk.symm
  induction d with
  | nil => simp [dictSet, dictLookup, hkq]
  | cons e rest ih =>
    obtain ⟨ek, ev⟩ := e
    by_cases he : ek = k
    · subst he
      simp [dictSet, dictLookup, hkq]
    · simp [dictSet, dictLookup, he, ih]

theorem mem_of_dictLookup {d : List (String × Bool)} {k : String} {v : Bool}
    (h : dictLookup d k = some v) : (k, v) ∈ d := by
  induction d with
  | nil => simp [dictLookup] at h
  | cons e rest ih =>
    obtain ⟨ek, ev⟩ := e
    by_cases he : ek = k
    · subst he
      simp only [dictLookup, if_pos rfl] at h
      injection h with hv
      subst hv
      exact List.mem_cons_self _ _
    · simp only [dictLookup, if_neg he] at h
      exact List.mem_cons_of_mem _ (ih h)

theorem isSome_dictLookup {d : List (String × Bool)} {k : String} :
    (dictLookup d k).isSome ↔ k ∈ d.map Prod.fst := by
  induction d with
  | nil => simp [dictLookup]
  | cons e rest ih =>
    obtain ⟨ek, ev⟩ := e
    by_cases he : ek = k
    · subst he
      simp [dictLookup]
    · simp [dictLookup, he, ih, Ne.symm he]

theorem dictKeys_set (d : List (String × Bool)) (k : String) (v : Bool) :
    (dictSet d k v).map Prod.fst =
      if k ∈ d.map Prod.fst then d.map Prod.fst else d.map Prod.fst ++ [k] := by
  induction d with
  | nil => simp [dictSet]
  | cons e rest ih =>
    obtain ⟨ek, ev⟩ := e
    by_cases he : ek = k
    · subst he
      simp [dictSet]
    · by_cases hk : k ∈ rest.map Prod.fst
      · simp [dictSet, he, ih, hk, Ne.symm he]
      · simp [dictSet, he, ih, hk, Ne.symm he]

theorem nodup_dictKeys_set {d : List (String × Bool)} (k : String) (v : Bool)
    (h : (d.map Prod.fst).Nodup) : ((dictSet d k v).map Prod.fst).Nodup := by
  rw [dictKeys_set]
  by_cases hk : k ∈ d.map Prod.fst
  · simpa [hk] using h
  · rw [if_neg hk]
    refine List.Nodup.append h (List.nodup_singleton k) ?_
    intro a ha hak
    rw [List.mem_singleton] at hak
    exact hk (hak ▸ ha)

theorem dictLookup_foldl_false (tcs : List ToolCall) (d : List (String × Bool)) (q : String) :
    dictLookup (tcs.foldl (fun d tc => dictSet d tc.id false) d) q =
      if q ∈ tcs.map ToolCall.id then some false else dictLookup d q := by
  induction tcs generalizing d with
  | nil => simp
  | cons tc rest ih =>
    simp only [List.foldl_cons, List.map_cons, List.mem_cons]
    rw [ih]
    by_cases hq : q ∈ rest.map ToolCall.id
    · simp [hq]
    · by_cases he : q = tc.id
      · simp [hq, he, dictLookup_set_self]
      · simp [hq, he, dictLookup_set_ne _ _ _ _ he]

theorem nodup_dictKeys_foldl_false (tcs : List ToolCall) (d : List (String × Bool))
    (h : (d.map Prod.fst).Nodup) :
    (((tcs.foldl (fun d tc => dictSet d tc.id false) d)).map Prod.fst).Nodup := by
  induction tcs generalizing d with
  | nil => simpa
  | cons tc rest ih => exact ih _ (nodup_dictKeys_set _ _ h)

/-- Membership in the `missing_responses` list computed from the final
`pending_tool_calls` dict. -/
theorem mem_missingOf {d : List (String × Bool)} {id : String} :
    id ∈ (d.filter (fun p => !p.2)).map Prod.fst ↔ (id, false) ∈ d := by
  constructor
  · intro h
    rcases List.mem_map.mp h with ⟨⟨a, b⟩, hab, rfl⟩
    rcases List.mem_filter.mp hab with ⟨hmem, hb⟩
    simp only [Bool.not_eq_true'] at hb
    simpa [hb] using hmem
  · intro h
    exact List.mem_map.mpr ⟨(id, false), List.mem_filter.mpr ⟨h, rfl⟩, rfl⟩

/-! ### Positional lemmas for extending the processed prefix -/

theorem declAt_append_left {p : List Msg} {m : Msg} {id : String} {i : Nat}
    (h : DeclAt p id i) : DeclAt (p ++ [m]) id i := by
  obtain ⟨hi, hd⟩ := h
  have hi' : i < (p ++ [m]).length := by simp; omega
  exact ⟨hi', by rwa [List.getElem_append_left hi]⟩

theorem declAt_append_self {p : List Msg} {m : Msg} {id : String}
    (h : id ∈ declaredIds m) : DeclAt (p ++ [m]) id p.length := by
  have hl : p.length < (p ++ [m]).length := by simp
  refine ⟨hl, ?_⟩
  rwa [List.getElem_concat_length p m p.length rfl]

theorem declAt_append_elim {p : List Msg} {m : Msg} {id : String} {i : Nat}
    (h : DeclAt (p ++ [m]) id i) : DeclAt p id i ∨ (i = p.length ∧ id ∈ declaredIds m) := by
  obtain ⟨hi, hd⟩ := h
  have hi2 : i < p.length + 1 := by simpa using hi
  by_cases hlt : i < p.length
  · left
    exact ⟨hlt, by rwa [List.getElem_append_left hlt] at hd⟩
  · right
    have he : i = p.length := by omega
    subst he
    exact ⟨rfl, by rwa [List.getElem_concat_length p m p.length rfl] at hd⟩

theorem ansAfter_append_left {p : List Msg} {m : Msg} {id : String} {i : Nat}
    (h : AnsAfter p id i) : AnsAfter (p ++ [m]) id i := by
  obtain ⟨j, hij, hj, ha⟩ := h
  have hj' : j < (p ++ [m]).length := by simp; omega
  exact ⟨j, hij, hj', by rwa [List.getElem_append_left hj]⟩

theorem ansAfter_append_self {p : List Msg} {m : Msg} {id : String} {i : Nat}
    (hi : i < p.length) (h : answersId m id = true) : AnsAfter (p ++ [m]) id i := by
  have hl : p.length < (p ++ [m]).length := by simp
  exact ⟨p.length, hi, hl, by rwa [List.getElem_concat_length p m p.length rfl]⟩

theorem noAnsAfter_append {p : List Msg} {m : Msg} {id : String} {i : Nat}
    (hm : answersId m id = false)
    (h : ∀ j, (hj : j < p.length) → i < j → answersId p[j] id = false) :
    ∀ j, (hj : j < (p ++ [m]).length) → i < j → answersId (p ++ [m])[j] id = false := by
  intro j hj hij
  have hj2 : j < p.length + 1 := by simpa using hj
  by_cases hlt : j < p.length
  · rw [List.getElem_append_left hlt]
    exact h j hlt hij
  · have he : j = p.length := by omega
    subst he
    rwa [List.getElem_concat_length p m p.length rfl]

/-! ### Preservation of the pending invariant -/

/-- Extending the prefix by a message that declares nothing and answers no
pending id, without touching the dict, preserves the invariant.  This covers
user messages, system messages, assistant messages without a `tool_calls`
key, and tool messages whose id is not pending (which `_build_api_messages`
drops). -/
theorem pendingInv_extend_inert {p : List Msg} {pending : List (String × Bool)} {m : Msg}
    (h : PendingInv p pending)
    (hdecl : declaredIds m = [])
    (hans : ∀ id, (dictLookup pending id).isSome → answersId m id = false) :
    PendingInv (p ++ [m]) pending := by
  obtain ⟨hU, hK, hT, hF⟩ := h
  refine ⟨hU, ?_, ?_, ?_⟩
  · intro id
    rw [hK id]
    constructor
    · rintro ⟨i, hd⟩
      exact ⟨i, declAt_append_left hd⟩
    · rintro ⟨i, hd⟩
      rcases declAt_append_elim hd with hold | ⟨_, hnew⟩
      · exact ⟨i, hold⟩
      · rw [hdecl] at hnew
        simp at hnew
  · intro id hv i hd
    rcases declAt_append_elim hd with hold | ⟨_, hnew⟩
    · exact ansAfter_append_left (hT id hv i hold)
    · rw [hdecl] at hnew
      simp at hnew
  · intro id hv
    obtain ⟨i, hd, hno⟩ := hF id hv
    have hsome : (dictLookup pending id).isSome := by rw [hv]; rfl
    exact ⟨i, declAt_append_left hd, noAnsAfter_append (hans id hsome) hno⟩

/-- Processing an assistant message with a `tool_calls` key: all its ids are
(re)set to `False` in the dict. -/
theorem pendingInv_step_assistant {p : List Msg} {pending : List (String × Bool)}
    {c : Option String} {tcs : List ToolCall}
    (h : PendingInv p pending) :
    PendingInv (p ++ [Msg.assistant c (some tcs)])
      (tcs.foldl (fun d tc => dictSet d tc.id false) pending) := by
  obtain ⟨hU, hK, hT, hF⟩ := h
  have hm : declaredIds (Msg.assistant c (some tcs)) = tcs.map ToolCall.id := rfl
  refine ⟨nodup_dictKeys_foldl_false tcs pending hU, ?_, ?_, ?_⟩
  · intro id
    rw [dictLookup_foldl_false]
    by_cases hS : id ∈ tcs.map ToolCall.id
    · simp only [if_pos hS]
      constructor
      · intro _
        exact ⟨p.length, declAt_append_self (by rwa [hm])⟩
      · intro _
        rfl
    · rw [if_neg hS, hK id]
      constructor
      · rintro ⟨i, hd⟩
        exact ⟨i, declAt_append_left hd⟩
      · rintro ⟨i, hd⟩
        rcases declAt_append_elim hd with hold | ⟨_, hnew⟩
        · exact ⟨i, hold⟩
        · rw [hm] at hnew
          exact absurd hnew hS
  · intro id hv i hd
    rw [dictLookup_foldl_false] at hv
    by_cases hS : id ∈ tcs.map ToolCall.id
    · rw [if_pos hS] at hv
      exact absurd hv (by simp)
    · rw [if_neg hS] at hv
      rcases declAt_append_elim hd with hold | ⟨_, hnew⟩
      · exact ansAfter_append_left (hT id hv i hold)
      · rw [hm] at hnew
        exact absurd hnew hS
  · intro id hv
    rw [dictLookup_foldl_false] at hv
    by_cases hS : id ∈ tcs.map ToolCall.id
    · refine ⟨p.length, declAt_append_self (by rwa [hm]), ?_⟩
      intro j hj hij
      have hj2 : j < p.length + 1 := by simpa using hj
      exact absurd hij (by omega)
    · rw [if_neg hS] at hv
      obtain ⟨i, hd, hno⟩ := hF id hv
      exact ⟨i, declAt_append_left hd,
        noAnsAfter_append (by simp [answersId]) hno⟩

/-- Processing a tool message whose call id is pending: the message is kept
and the id's entry is set to `True`. -/
theorem pendingInv_step_tool {p : List Msg} {pending : List (String × Bool)}
    {tid nm ct : String}
    (hsome : (dictLookup pending tid).isSome)
    (h : PendingInv p pending) :
    PendingInv (p ++ [Msg.tool tid nm ct]) (dictSet pending tid true) := by
  obtain ⟨hU, hK, hT, hF⟩ := h
  have hmdecl : declaredIds (Msg.tool tid nm ct) = [] := rfl
  refine ⟨nodup_dictKeys_set tid true hU, ?_, ?_, ?_⟩
  · intro id
    by_cases he : id = tid
    · subst he
      rw [dictLookup_set_self]
      simp only [Option.isSome_some, true_iff]
      obtain ⟨i, hd⟩ := (hK id).mp hsome
      exact ⟨i, declAt_append_left hd⟩
    · rw [dictLookup_set_ne pending tid true id he, hK id]
      constructor
      · rintro ⟨i, hd⟩
        exact ⟨i, declAt_append_left hd⟩
      · rintro ⟨i, hd⟩
        rcases declAt_append_elim hd with hold | ⟨_, hnew⟩
        · exact ⟨i, hold⟩
        · rw [hmdecl] at hnew
          simp at hnew
  · intro id hv i hd
    by_cases he : id = tid
    · subst he
      rcases declAt_append_elim hd with hold | ⟨_, hnew⟩
      · obtain ⟨hi, _⟩ := hold
        exact ansAfter_append_self hi (by simp [answersId])
      · rw [hmdecl] at hnew
        simp at hnew
    · rw [dictLookup_set_ne pending tid true id he] at hv
      rcases declAt_append_elim hd with hold | ⟨_, hnew⟩
      · exact ansAfter_append_left (hT id hv i hold)
      · rw [hmdecl] at hnew
        simp at hnew
  · intro id hv
    by_cases he : id = tid
    · subst he
      rw [dictLookup_set_self] at hv
      exact absurd hv (by simp)
    · rw [dictLookup_set_ne pending tid true id he] at hv
      obtain ⟨i, hd, hno⟩ := hF id hv
      refine ⟨i, declAt_append_left hd, noAnsAfter_append ?_ hno⟩
      simp only [answersId, beq_eq_false_iff_ne, ne_eq]
      exact fun hc => he hc.symm

/-- One step of the loop of `_build_api_messages` preserves the invariant. -/
theorem pendingInv_buildStep {p : List Msg} {st : List Msg × List (String × Bool)} (m : Msg)
    (h : PendingInv p st.2) : PendingInv (p ++ [m]) (buildStep st m).2 := by
  cases m with
  | user c =>
      exact pendingInv_extend_inert h rfl (fun id _ => rfl)
  | system c =>
      exact pendingInv_extend_inert h rfl (fun id _ => rfl)
  | assistant c tcsOpt =>
      cases tcsOpt with
      | none => exact pendingInv_extend_inert h rfl (fun id _ => rfl)
      | some tcs => exact pendingInv_step_assistant h
  | tool tid nm ct =>
      by_cases hsome : (dictLookup st.2 tid).isSome
      · have : (buildStep st (Msg.tool tid nm ct)).2 = dictSet st.2 tid true := by
          simp [buildStep, hsome]
        rw [this]
        exact pendingInv_step_tool hsome h
      · have : (buildStep st (Msg.tool tid nm ct)).2 = st.2 := by
          simp [buildStep, hsome]
        rw [this]
        refine pendingInv_extend_inert h rfl ?_
        intro id hid
        simp only [answersId, beq_eq_false_iff_ne, ne_eq]
        intro hc
        subst hc
        exact hsome hid

theorem pendingInv_foldl (suffix : List Msg) :
    ∀ (p : List Msg) (st : List Msg × List (String × Bool)),
      PendingInv p st.2 → PendingInv (p ++ suffix) (suffix.foldl buildStep st).2 := by
  induction suffix with
  | nil =>
      intro p st h
      simpa using h
  | cons m rest ih =>
      intro p st h
      have h1 := pendingInv_buildStep m h
      have h2 := ih (p ++ [m]) (buildStep st m) h1
      simpa using h2

theorem pendingInv_nil : PendingInv [] [] := by
  refine ⟨List.nodup_nil, ?_, ?_, ?_⟩
  · intro id
    simp [dictLookup, DeclAt]
  · intro id hv
    simp [dictLookup] at hv
  · intro id hv
    simp [dictLookup] at hv

/-- The invariant holds of the final `pending_tool_calls` dict. -/
theorem pendingInv_buildPending (msgs : List Msg) : PendingInv msgs (buildPending msgs) := by
  have h := pendingInv_foldl msgs [] ([], []) pendingInv_nil
  simpa [buildPending] using h

theorem dictLookup_eq_of_mem_nodup {d : List (String × Bool)} {k : String} {v : Bool}
    (hU : (d.map Prod.fst).Nodup) (h : (k, v) ∈ d) :
    dictLookup d k = some v := by
  induction d with
  | nil => simp at h
  | cons e rest ih =>
    obtain ⟨ek, ev⟩ := e
    rcases List.mem_cons.mp h with he | hrest
    · injection he with h1 h2
      subst h1
      subst h2
      simp [dictLookup]
    · have hk : k ∈ rest.map Prod.fst := List.mem_map.mpr ⟨(k, v), hrest, rfl⟩
      have hne : ek ≠ k := by
        intro hc
        subst hc
        exact (List.nodup_cons.mp hU).1 hk
      simp only [dictLookup, if_neg hne]
      exact ih (List.nodup_cons.mp hU).2 hrest

theorem build_api_messages_snd (msgs : List Msg) :
    (build_api_messages msgs).2 = missingResponses msgs := by
  unfold build_api_messages
  split <;> rfl

/-- A message of the snapshot never declares an id of the
`missing_responses` list: either that list is empty, or the final filter
removed every assistant message declaring such an id. -/
theorem mem_snapshot_not_missing {msgs : List Msg} {m : Msg} {id : String}
    (hm : m ∈ (build_api_messages msgs).1) (hid : id ∈ declaredIds m) :
    id ∉ missingResponses msgs := by
  by_cases hE : (missingResponses msgs).isEmpty
  · rw [List.isEmpty_iff] at hE
    rw [hE]
    simp
  · have hfst : (build_api_messages msgs).1 =
        (buildApiRaw msgs).filter (keepMsg (missingResponses msgs)) := by
      unfold build_api_messages
      rw [if_neg hE]
    rw [hfst] at hm
    have hkeep : keepMsg (missingResponses msgs) m = true := (List.mem_filter.mp hm).2
    cases m with
    | user c => exact absurd hid (by simp [declaredIds])
    | system c => exact absurd hid (by simp [declaredIds])
    | tool a b c => exact absurd hid (by simp [declaredIds])
    | assistant c tcsOpt =>
        cases tcsOpt with
        | none => exact absurd hid (by simp [declaredIds])
        | some tcs =>
            simp only [keepMsg, Bool.not_eq_true', List.any_eq_false] at hkeep
            simp only [declaredIds, List.mem_map] at hid
            obtain ⟨tc, htc, rfl⟩ := hid
            have hc := hkeep tc htc
            intro hmem
            rw [List.contains_iff_exists_mem_beq] at hc
            exact hc ⟨tc.id, hmem, by simp⟩

/-- C1: for every stored sequence of messages, the snapshot built by
`_build_api_messages` contains no assistant message declaring a tool-call id
that is not answered by a tool-result message strictly later in the stored
sequence; moreover every id of the emitted `missing_responses` diagnostic is
genuinely orphaned (declared at some position after which no matching
tool-result follows). -/
theorem C1_snapshot_excludes_orphans (msgs : List Msg) :
    (∀ m ∈ (build_api_messages msgs).1, ∀ id ∈ declaredIds m,
      ∀ i, (hi : i < msgs.length) → msgs[i] = m →
        ∃ j, i < j ∧ ∃ hj : j < msgs.length, answersId msgs[j] id = true) ∧
    (∀ id ∈ (build_api_messages msgs).2,
      ∃ i, ∃ hi : i < msgs.length, id ∈ declaredIds msgs[i] ∧
        ∀ j, (hj : j < msgs.length) → i < j → answersId msgs[j] id = false) := by
  obtain ⟨hU, hK, hT, hF⟩ := pendingInv_buildPending msgs
  constructor
  · intro m hm id hid i hi hmi
    have hd : DeclAt msgs id i := ⟨hi, by rw [hmi]; exact hid⟩
    have hsome : (dictLookup (buildPending msgs) id).isSome := (hK id).mpr ⟨i, hd⟩
    obtain ⟨v, hv⟩ := Option.isSome_iff_exists.mp hsome
    cases v with
    | false =>
        have hmiss : id ∈ missingResponses msgs :=
          mem_missingOf.mpr (mem_of_dictLookup hv)
        exact absurd hmiss (mem_snapshot_not_missing hm hid)
    | true =>
        exact hT id hv i hd
  · intro id hmem
    rw [build_api_messages_snd] at hmem
    have hentry : (id, false) ∈ buildPending msgs := mem_missingOf.mp hmem
    have hv : dictLookup (buildPending msgs) id = some false :=
      dictLookup_eq_of_mem_nodup hU hentry
    obtain ⟨i, ⟨hi, hdecl⟩, hno⟩ := hF id hv
    exact ⟨i, hi, hdecl, hno⟩

/-! ### Characterization of `handle_tool_calls` and `chat` -/

theorem handle_tool_calls_go (exec : ToolCall → Except String String) (tcs : List ToolCall)
    (acc : List Msg × List ToolCall) :
    tcs.foldl
      (fun acc tc =>
        if tc.name = "generate_image" then
          match exec tc with
          | .ok image_path =>
              (acc.1 ++ [Msg.tool tc.id "generate_image" (jsonField "image_path" image_path)],
               acc.2 ++ [tc])
          | .error e =>
              (acc.1 ++ [Msg.tool tc.id "generate_image" (jsonField "error" e)],
               acc.2 ++ [tc])
        else acc)
      acc =
    (acc.1 ++ (tcs.filter (fun tc => decide (tc.name = "generate_image"))).map (genImageResult exec),
     acc.2 ++ tcs.filter (fun tc => decide (tc.name = "generate_image"))) := by
  induction tcs generalizing acc with
  | nil => simp
  | cons tc rest ih =>
    rw [List.foldl_cons, ih]
    by_cases hname : tc.name = "generate_image"
    · cases hexec : exec tc with
      | ok p => simp [hname, hexec, genImageResult]
      | error e => simp [hname, hexec, genImageResult]
    · simp [hname]

/-- The results and the dispatch trace of `handle_tool_calls` are the
`generate_image`-named calls of the batch, in batch order. -/
theorem handle_tool_calls_eq (exec : ToolCall → Except String String) (tcs : List ToolCall) :
    handle_tool_calls exec tcs =
      ((tcs.filter (fun tc => decide (tc.name = "generate_image"))).map (genImageResult exec),
       tcs.filter (fun tc => decide (tc.name = "generate_image"))) := by
  unfold handle_tool_calls
  rw [handle_tool_calls_go]
  simp

theorem toolIdOf_genImageResult (exec : ToolCall → Except String String) (tc : ToolCall) :
    toolIdOf (genImageResult exec tc) = some tc.id := by
  unfold genImageResult
  cases exec tc <;> rfl

theorem toolIds_map_genImageResult (exec : ToolCall → Except String String) (l : List ToolCall) :
    toolIds (l.map (genImageResult exec)) = l.map ToolCall.id := by
  induction l with
  | nil => rfl
  | cons tc rest ih =>
      simp only [List.map_cons, toolIds, List.filterMap_cons, toolIdOf_genImageResult]
      simpa [toolIds] using ih

theorem chat_eq_of_truthy (c1 c2 : List Msg → CompletionResponse)
    (exec : ToolCall → Except String String) (msgs0 : List Msg) (input : String)
    (htc : optListTruthy (c1 (msgs0 ++ [Msg.user input])).tool_calls = true) :
    chat c1 c2 exec msgs0 input =
      { messages := chatReq2 c1 exec msgs0 input ++
          [Msg.assistant (c2 (chatReq2 c1 exec msgs0 input)).content
            (c2 (chatReq2 c1 exec msgs0 input)).tool_calls],
        answer := (c2 (chatReq2 c1 exec msgs0 input)).content.getD "",
        requests := [msgs0 ++ [Msg.user input], chatReq2 c1 exec msgs0 input],
        execs := (handle_tool_calls exec ((c1 (msgs0 ++ [Msg.user input])).tool_calls.getD [])).2 } := by
  unfold chat chatReq2
  simp only [htc, if_true]

theorem chat_eq_of_falsy (c1 c2 : List Msg → CompletionResponse)
    (exec : ToolCall → Except String String) (msgs0 : List Msg) (input : String)
    (htc : optListTruthy (c1 (msgs0 ++ [Msg.user input])).tool_calls = false) :
    chat c1 c2 exec msgs0 input =
      { messages := msgs0 ++ [Msg.user input] ++
          [Msg.assistant (c1 (msgs0 ++ [Msg.user input])).content
            (c1 (msgs0 ++ [Msg.user input])).tool_calls],
        answer := (c1 (msgs0 ++ [Msg.user input])).content.getD "",
        requests := [msgs0 ++ [Msg.user input]],
        execs := [] } := by
  unfold chat
  simp only [htc, if_false, Bool.false_eq_true]

/-! ### Lemmas about the tool loop and phases of `process_query` -/

/-- When the tool loop of `process_query` completes without raising, it has
appended one tool message per batch entry, with matching ids in batch
order, invoked `call_tool` once per entry in batch order, and made no
completion request. -/
theorem toolLoop_ok_toolIds (parseArgs : String → Except String String)
    (callTool : String → String → Except String String)
    (tcs : List ToolCall) (st st' : PQState)
    (h : toolLoop parseArgs callTool tcs st = .ok st') :
    toolIds st'.messages = toolIds st.messages ++ tcs.map ToolCall.id ∧
    st'.execs.map Prod.fst = st.execs.map Prod.fst ++ tcs.map ToolCall.name ∧
    st'.requests = st.requests := by
  induction tcs generalizing st with
  | nil =>
      simp only [toolLoop] at h
      injection h with h'
      subst h'
      simp
  | cons tc rest ih =>
      simp only [toolLoop] at h
      split at h
      · exact absurd h (by simp)
      · split at h
        · exact absurd h (by simp)
        · obtain ⟨h1, h2, h3⟩ := ih _ h
          simp only at h1 h2 h3
          refine ⟨?_, ?_, h3⟩
          · rw [h1]
            simp [toolIds, List.filterMap_append, toolIdOf]
          · rw [h2]
            simp

theorem toolLoop_requests_eq (parseArgs : String → Except String String)
    (callTool : String → String → Except String String)
    (tcs : List ToolCall) (st : PQState) :
    (tryState (toolLoop parseArgs callTool tcs st)).requests = st.requests := by
  induction tcs generalizing st with
  | nil => rfl
  | cons tc rest ih =>
      simp only [toolLoop]
      split
      · rfl
      · split
        · rfl
        · simpa using ih _

theorem toolLoop_execs_mem (parseArgs : String → Except String String)
    (callTool : String → String → Except String String)
    (tcs : List ToolCall) (st : PQState) :
    ∀ e ∈ (tryState (toolLoop parseArgs callTool tcs st)).execs,
      e ∈ st.execs ∨ e.1 ∈ tcs.map ToolCall.name := by
  induction tcs generalizing st with
  | nil =>
      intro e he
      left
      simpa [toolLoop, tryState] using he
  | cons tc rest ih =>
      intro e he
      simp only [toolLoop] at he
      split at he
      · left
        simpa [tryState] using he
      · split at he
        · simp only [tryState] at he
          rcases List.mem_append.mp he with h1 | h2
          · exact Or.inl h1
          · right
            rw [List.mem_singleton.mp h2]
            simp
        · rcases ih _ e he with h1 | h2
          · simp only at h1
            rcases List.mem_append.mp h1 with ha | hb
            · exact Or.inl ha
            · right
              rw [List.mem_singleton.mp hb]
              simp
          · right
            simp [h2]

theorem pqSecondPhase_requests (c2 : List Msg → Except String CompletionResponse)
    (st4 : PQState) :
    (tryState (pqSecondPhase c2 st4)).requests =
      st4.requests ++ [(build_api_messages st4.messages).1] := by
  cases hc2 : c2 ((build_api_messages st4.messages).1) with
  | error e => simp [pqSecondPhase, hc2, tryState]
  | ok resp2 =>
      by_cases hco : optStrTruthy resp2.content
      · simp [pqSecondPhase, hc2, hco, tryState]
      · simp [pqSecondPhase, hc2, hco, tryState]

theorem pqSecondPhase_execs (c2 : List Msg → Except String CompletionResponse)
    (st4 : PQState) :
    (tryState (pqSecondPhase c2 st4)).execs = st4.execs := by
  cases hc2 : c2 ((build_api_messages st4.messages).1) with
  | error e => simp [pqSecondPhase, hc2, tryState]
  | ok resp2 =>
      by_cases hco : optStrTruthy resp2.content
      · simp [pqSecondPhase, hc2, hco, tryState]
      · simp [pqSecondPhase, hc2, hco, tryState]

theorem pqFinal_requests (r : TryResult) : (pqFinal r).requests = (tryState r).requests := by
  cases r <;> rfl

theorem pqFinal_execs (r : TryResult) : (pqFinal r).execs = (tryState r).execs := by
  cases r <;> rfl

theorem pqAfterFirst_requests (resp : CompletionResponse) (st1 : PQState) :
    (pqAfterFirst resp st1).requests = st1.requests := by
  unfold pqAfterFirst
  by_cases hco : optStrTruthy resp.content
  · simp [hco]
  · simp [hco]

theorem pqAfterFirst_execs (resp : CompletionResponse) (st1 : PQState) :
    (pqAfterFirst resp st1).execs = st1.execs := by
  unfold pqAfterFirst
  by_cases hco : optStrTruthy resp.content
  · simp [hco]
  · simp [hco]

theorem pqAfterFirst_messages (resp : CompletionResponse) (st1 : PQState) :
    (pqAfterFirst resp st1).messages = st1.messages ++
      [Msg.assistant (some (resp.content.getD ""))
        (if optListTruthy resp.tool_calls then resp.tool_calls else none)] := by
  unfold pqAfterFirst
  by_cases hco : optStrTruthy resp.content
  · simp [hco]
  · simp [hco]

theorem pqToolPhase_requests_execs (c2 : List Msg → Except String CompletionResponse)
    (parseArgs : String → Except String String)
    (callTool : String → String → Except String String)
    (batch : List ToolCall) (st3 : PQState) :
    (tryState (pqToolPhase c2 parseArgs callTool batch st3)).requests.length ≤
      st3.requests.length + 1 ∧
    (∀ e ∈ (tryState (pqToolPhase c2 parseArgs callTool batch st3)).execs,
      e ∈ st3.execs ∨ e.1 ∈ batch.map ToolCall.name) := by
  have hreq := toolLoop_requests_eq parseArgs callTool batch st3
  have hex := toolLoop_execs_mem parseArgs callTool batch st3
  unfold pqToolPhase
  cases hloop : toolLoop parseArgs callTool batch st3 with
  | exn st e =>
      rw [hloop] at hreq hex
      simp only [tryState] at hreq hex ⊢
      exact ⟨by rw [hreq]; omega, hex⟩
  | ok st4 =>
      rw [hloop] at hreq hex
      simp only [tryState] at hreq hex
      have h2 := pqSecondPhase_requests c2 st4
      have h3 := pqSecondPhase_execs c2 st4
      refine ⟨?_, ?_⟩
      · rw [h2, List.length_append, hreq]
        simp
      · intro e he
        rw [h3] at he
        exact hex e he

/-- Every `process_query` turn makes at most two completion requests, and
every `call_tool` invocation of the turn names a tool call of the first
response's batch. -/
theorem pqTry_requests_execs (c1 c2 : List Msg → Except String CompletionResponse)
    (parseArgs : String → Except String String)
    (callTool : String → String → Except String String)
    (st0 : PQState) :
    (tryState (pqTry c1 c2 parseArgs callTool st0)).requests.length ≤ st0.requests.length + 2 ∧
    (∀ e ∈ (tryState (pqTry c1 c2 parseArgs callTool st0)).execs,
      e ∈ st0.execs ∨ e.1 ∈ (match c1 ((build_api_messages st0.messages).1) with
        | .ok resp => resp.tool_calls.getD []
        | .error _ => []).map ToolCall.name) := by
  simp only [pqTry]
  cases hc1 : c1 ((build_api_messages st0.messages).1) with
  | error e =>
      refine ⟨by simp [tryState], ?_⟩
      intro x hx
      left
      simpa [tryState] using hx
  | ok resp =>
      by_cases htc : optListTruthy resp.tool_calls
      · simp only [htc, if_true]
        obtain ⟨h1, h2⟩ := pqToolPhase_requests_execs c2 parseArgs callTool
          (resp.tool_calls.getD [])
          (pqAfterFirst resp
            { st0 with requests := st0.requests ++ [(build_api_messages st0.messages).1] })
        refine ⟨?_, ?_⟩
        · refine le_trans h1 ?_
          rw [pqAfterFirst_requests]
          simp
        · intro x hx
          rcases h2 x hx with hl | hr
          · rw [pqAfterFirst_execs] at hl
            exact Or.inl hl
          · exact Or.inr hr
      · simp only [htc, if_false, Bool.false_eq_true]
        refine ⟨?_, ?_⟩
        · simp only [tryState]
          rw [pqAfterFirst_requests]
          simp
        · intro x hx
          left
          simp only [tryState] at hx
          rw [pqAfterFirst_execs] at hx
          exact hx

example :
    build_api_messages
      [Msg.assistant (some "") (some [⟨"c1", "t", "a"⟩, ⟨"c2", "t", "a"⟩]),
       Msg.tool "c1" "t" "r"] =
    ([Msg.tool "c1" "t" "r"], ["c2"]) := by decide

example :
    build_api_messages
      [Msg.user "q",
       Msg.assistant (some "") (some [⟨"c1", "t", "a"⟩]),
       Msg.tool "c1" "t" "r",
       Msg.assistant (some "done") none] =
    ([Msg.user "q",
      Msg.assistant (some "") (some [⟨"c1", "t", "a"⟩]),
      Msg.tool "c1" "t" "r",
      Msg.assistant (some "done") none], []) := by decide

/-- With duplicate-free ids, a `generate_image`-named call of the batch has
exactly one matching tool-result among `handle_tool_calls`'s results. -/
theorem count_result_of_registered (exec : ToolCall → Except String String)
    (tcs : List ToolCall) (tc : ToolCall)
    (hnd : (tcs.map ToolCall.id).Nodup) (htc : tc ∈ tcs)
    (hname : tc.name = "generate_image") :
    (toolIds (handle_tool_calls exec tcs).1).count tc.id = 1 := by
  rw [handle_tool_calls_eq]
  simp only
  rw [toolIds_map_genImageResult]
  have hsub : ((tcs.filter (fun x => decide (x.name = "generate_image"))).map ToolCall.id).Sublist
      (tcs.map ToolCall.id) :=
    (List.filter_sublist tcs).map ToolCall.id
  have hle := hsub.count_le tc.id
  have hone : (tcs.map ToolCall.id).count tc.id = 1 :=
    List.count_eq_one_of_mem hnd (List.mem_map.mpr ⟨tc, htc, rfl⟩)
  have hmem : tc.id ∈ (tcs.filter (fun x => decide (x.name = "generate_image"))).map ToolCall.id :=
    List.mem_map.mpr ⟨tc, List.mem_filter.mpr ⟨htc, by simp [hname]⟩, rfl⟩
  have hpos := List.count_pos_iff.mpr hmem
  omega

/-! ## The claims -/

/-- C1: for every stored sequence of messages (any interleaving of user,
system, assistant-with-tool-calls and tool-result entries), the snapshot
built by `_build_api_messages` contains no assistant message declaring a
tool-call id that lacks a matching tool-result message strictly later in
the stored sequence; moreover every id named by the emitted
`missing_responses` diagnostic is genuinely orphaned: it is declared at
some position after which no matching tool-result ever follows. -/
theorem C1_snapshot_excludes_orphans_claim (msgs : List Msg) :
    (∀ m ∈ (build_api_messages msgs).1, ∀ id ∈ declaredIds m,
      ∀ i, (hi : i < msgs.length) → msgs[i] = m →
        ∃ j, i < j ∧ ∃ hj : j < msgs.length, answersId msgs[j] id = true) ∧
    (∀ id ∈ (build_api_messages msgs).2,
      ∃ i, ∃ hi : i < msgs.length, id ∈ declaredIds msgs[i] ∧
        ∀ j, (hj : j < msgs.length) → i < j → answersId msgs[j] id = false) :=
  C1_snapshot_excludes_orphans msgs

/-- C1 witness: on a history holding one assistant message declaring `c1`
and a matching tool result, the claim's conclusion instantiates at the
assistant message, which the snapshot keeps. -/
theorem C1_snapshot_excludes_orphans_witness :
    ∃ j, 0 < j ∧
      ∃ hj : j < ([Msg.assistant (some "") (some [⟨"c1", "t", "a"⟩]),
        Msg.tool "c1" "t" "r"] : List Msg).length,
      answersId ([Msg.assistant (some "") (some [⟨"c1", "t", "a"⟩]),
        Msg.tool "c1" "t" "r"] : List Msg)[j] "c1" = true :=
  (C1_snapshot_excludes_orphans_claim
      [Msg.assistant (some "") (some [⟨"c1", "t", "a"⟩]), Msg.tool "c1" "t" "r"]).1
    (Msg.assistant (some "") (some [⟨"c1", "t", "a"⟩])) (by decide)
    "c1" (by decide) 0 (by decide) (by decide)

/-- C6: building the API snapshot is a pure function of the stored message
sequence: the state-threaded translation of `_build_api_messages` leaves
the object state (`self.messages`) unchanged, and a second call on the
state left by the first call returns the same snapshot and diagnostic. -/
theorem C6_snapshot_pure (st : MCPClientState) :
    (build_api_messagesS st).1 = st ∧
    (build_api_messagesS ((build_api_messagesS st).1)).2 = (build_api_messagesS st).2 :=
  ⟨rfl, rfl⟩

/-- C9: on a history whose assistant message declares two tool calls of
which only `c1` is answered, the snapshot keeps the `c1` tool-result while
dropping the assistant message, so the snapshot holds a tool-result whose
id no assistant message of the snapshot declares. -/
theorem C9_partially_answered_batch :
    (build_api_messages
      [Msg.assistant (some "") (some [⟨"c1", "t", "a"⟩, ⟨"c2", "t", "a"⟩]),
       Msg.tool "c1" "t" "r"]).1 = [Msg.tool "c1" "t" "r"] ∧
    (∀ m ∈ (build_api_messages
      [Msg.assistant (some "") (some [⟨"c1", "t", "a"⟩, ⟨"c2", "t", "a"⟩]),
       Msg.tool "c1" "t" "r"]).1, declaredIds m = []) := by
  decide

/-- C2 counterexample: the first response requests one tool call (id `c1`)
whose name is unknown to `ChatSession.handle_tool_calls`; the turn then
issues a second completion request although no tool-result with id `c1` was
ever appended — refuting the claim that every issued tool call gets exactly
one matching tool-result before any further completion request. -/
theorem C2_counterexample :
    (chat (fun _ => ⟨some "", some [⟨"c1", "get_weather", "\x7b\x7d"⟩]⟩)
        (fun _ => ⟨some "done", none⟩) (fun _ => .ok "x") [] "hi").requests.length = 2 ∧
    (toolIds (chat (fun _ => ⟨some "", some [⟨"c1", "get_weather", "\x7b\x7d"⟩]⟩)
        (fun _ => ⟨some "done", none⟩) (fun _ => .ok "x") [] "hi").messages).count "c1" = 0 := by
  decide

/-- C2 (amended): when the first completion response of a turn requests
tool calls, then in the in-process loop the `tool_call_id`s of the appended
tool-result messages are exactly the ids of the `generate_image`-named
calls of the batch, in batch order — exactly one result per
registered-named call and none for unknown-named calls — and the turn's
only further completion request carries a payload already containing all
of them; in the protocol loop, a tool loop that completes appends exactly
one tool-result with matching `tool_call_id` per issued call, in batch
order, and the second completion request is built from the history
containing those results, while a tool execution that raises aborts the
round so that no further completion request is issued. -/
theorem C2_amended_registered_calls_answered (c1 c2 : List Msg → CompletionResponse)
    (exec : ToolCall → Except String String) (msgs0 : List Msg) (input : String)
    (d2 : List Msg → Except String CompletionResponse)
    (parseArgs : String → Except String String)
    (callTool : String → String → Except String String)
    (tcs : List ToolCall) (st st' : PQState) (e : String)
    (htc : optListTruthy (c1 (msgs0 ++ [Msg.user input])).tool_calls = true) :
    (chat c1 c2 exec msgs0 input).requests =
      [msgs0 ++ [Msg.user input], chatReq2 c1 exec msgs0 input] ∧
    chatReq2 c1 exec msgs0 input =
      msgs0 ++ [Msg.user input] ++
        [Msg.assistant (c1 (msgs0 ++ [Msg.user input])).content
          (c1 (msgs0 ++ [Msg.user input])).tool_calls] ++
        (handle_tool_calls exec ((c1 (msgs0 ++ [Msg.user input])).tool_calls.getD [])).1 ∧
    toolIds (handle_tool_calls exec
        ((c1 (msgs0 ++ [Msg.user input])).tool_calls.getD [])).1 =
      (((c1 (msgs0 ++ [Msg.user input])).tool_calls.getD []).filter
        (fun tc => decide (tc.name = "generate_image"))).map ToolCall.id ∧
    (toolLoop parseArgs callTool tcs st = .ok st' →
      toolIds st'.messages = toolIds st.messages ++ tcs.map ToolCall.id) ∧
    (toolLoop parseArgs callTool tcs st = .ok st' →
      (tryState (pqToolPhase d2 parseArgs callTool tcs st)).requests =
        st.requests ++ [(build_api_messages st'.messages).1]) ∧
    (toolLoop parseArgs callTool tcs st = .exn st' e →
      pqToolPhase d2 parseArgs callTool tcs st = .exn st' e ∧ st'.requests = st.requests) := by
  refine ⟨?_, rfl, ?_, ?_, ?_, ?_⟩
  · rw [chat_eq_of_truthy c1 c2 exec msgs0 input htc]
  · rw [handle_tool_calls_eq]
    exact toolIds_map_genImageResult exec _
  · intro h
    exact (toolLoop_ok_toolIds parseArgs callTool tcs st st' h).1
  · intro h
    unfold pqToolPhase
    rw [h]
    have hreq := (toolLoop_ok_toolIds parseArgs callTool tcs st st' h).2.2
    rw [pqSecondPhase_requests d2 st', hreq]
  · intro h
    have hreq := toolLoop_requests_eq parseArgs callTool tcs st
    rw [h] at hreq
    refine ⟨?_, hreq⟩
    unfold pqToolPhase
    rw [h]

/-- C2 witness: the in-process id equation at a mixed batch (one registered
call, one unknown call: only `c1` gets a result), and the protocol-loop
implications at a concrete completed one-call loop. -/
theorem C2_amended_witness :
    toolIds (handle_tool_calls (fun _ => Except.ok "img.png")
      [⟨"c1", "generate_image", "\x7b\x7d"⟩, ⟨"c2", "get_weather", "\x7b\x7d"⟩]).1 = ["c1"] ∧
    toolIds [Msg.tool "t1" "get_forecast" "r"] = toolIds ([] : List Msg) ++ ["t1"] := by
  have h := C2_amended_registered_calls_answered
    (fun _ => ⟨some "", some [⟨"c1", "generate_image", "\x7b\x7d"⟩,
      ⟨"c2", "get_weather", "\x7b\x7d"⟩]⟩)
    (fun _ => ⟨some "done", none⟩) (fun _ => Except.ok "img.png") [] "hi"
    (fun _ => Except.error "unused") (fun s => Except.ok s) (fun _ _ => Except.ok "r")
    [⟨"t1", "get_forecast", "a"⟩]
    ⟨[], [], [], []⟩
    ⟨[Msg.tool "t1" "get_forecast" "r"],
     ["[Calling tool get_forecast with args a]"], [], [("get_forecast", "a")]⟩
    "e" (by decide)
  refine ⟨h.2.2.1.trans (by decide), ?_⟩
  exact h.2.2.2.1 (by decide)

/-- C3 counterexample: a tool call with an unregistered name yields no
tool-result message at all in `ChatSession` — `handle_tool_calls` only
logs it — so the failure is not converted into an error-payload
tool-result as the claim states (the round does continue). -/
theorem C3_counterexample :
    handle_tool_calls (fun _ => .ok "img.png") [⟨"c1", "translate", "\x7b\x7d"⟩] = ([], []) ∧
    (chat (fun _ => ⟨some "", some [⟨"c1", "translate", "\x7b\x7d"⟩]⟩)
        (fun _ => ⟨some "done", none⟩) (fun _ => .ok "img.png") [] "hi").messages =
      [Msg.user "hi",
       Msg.assistant (some "") (some [⟨"c1", "translate", "\x7b\x7d"⟩]),
       Msg.assistant (some "done") none] := by
  decide

/-- C3 (amended): in `ChatSession`, a `generate_image` call whose handler
fails is converted into a well-formed tool-result carrying the error as
payload and appended to the conversation, and the round continues to the
follow-up completion request (the loop is total, so it neither throws nor
ends the turn); a call whose name is unknown is skipped: every appended
result stems from a `generate_image`-named call of the batch. -/
theorem C3_amended_failures_become_results (c1 c2 : List Msg → CompletionResponse)
    (exec : ToolCall → Except String String) (msgs0 : List Msg) (input : String)
    (htc : optListTruthy (c1 (msgs0 ++ [Msg.user input])).tool_calls = true) :
    (chat c1 c2 exec msgs0 input).requests.length = 2 ∧
    (∀ tc ∈ (c1 (msgs0 ++ [Msg.user input])).tool_calls.getD [], ∀ e,
      tc.name = "generate_image" → exec tc = .error e →
      Msg.tool tc.id "generate_image" (jsonField "error" e) ∈
        (chat c1 c2 exec msgs0 input).messages) ∧
    (∀ m ∈ (handle_tool_calls exec ((c1 (msgs0 ++ [Msg.user input])).tool_calls.getD [])).1,
      ∃ tc ∈ (c1 (msgs0 ++ [Msg.user input])).tool_calls.getD [],
        tc.name = "generate_image" ∧ m = genImageResult exec tc) := by
  rw [chat_eq_of_truthy c1 c2 exec msgs0 input htc]
  refine ⟨rfl, ?_, ?_⟩
  · intro tc htcmem e hname herr
    have hres : Msg.tool tc.id "generate_image" (jsonField "error" e) =
        genImageResult exec tc := by
      unfold genImageResult
      rw [herr]
    have hmem : genImageResult exec tc ∈
        (handle_tool_calls exec ((c1 (msgs0 ++ [Msg.user input])).tool_calls.getD [])).1 := by
      rw [handle_tool_calls_eq]
      exact List.mem_map.mpr ⟨tc, List.mem_filter.mpr ⟨htcmem, by simp [hname]⟩, rfl⟩
    rw [hres]
    simp only [chatReq2]
    exact List.mem_append.mpr (Or.inl (List.mem_append.mpr (Or.inr hmem)))
  · intro m hm
    rw [handle_tool_calls_eq] at hm
    rcases List.mem_map.mp hm with ⟨tc, htcf, rfl⟩
    rcases List.mem_filter.mp htcf with ⟨htcmem, hname⟩
    exact ⟨tc, htcmem, by simpa using hname, rfl⟩

/-- C3 witness: a concrete failing `generate_image` call produces an
error-payload tool-result in the final history and the follow-up request
is made. -/
theorem C3_amended_witness :
    Msg.tool "c1" "generate_image" (jsonField "error" "boom") ∈
      (chat (fun _ => ⟨some "", some [⟨"c1", "generate_image", "\x7b\x7d"⟩]⟩)
        (fun _ => ⟨some "done", none⟩) (fun _ => .error "boom") [] "hi").messages :=
  (C3_amended_failures_become_results
      (fun _ => ⟨some "", some [⟨"c1", "generate_image", "\x7b\x7d"⟩]⟩)
      (fun _ => ⟨some "done", none⟩) (fun _ => .error "boom") [] "hi"
      (by decide)).2.1
    ⟨"c1", "generate_image", "\x7b\x7d"⟩ (by decide) "boom" rfl rfl

/-- C4: each loop makes at most two completion requests per user turn; every
tool call that is executed comes from the first response's batch, so tool
calls requested by the second response are never executed and no third
request is issued; when the first response carried tool calls, `chat`
returns whatever text the second response has (its `content`, or `""`). -/
theorem C4_round_cap (c1 c2 : List Msg → CompletionResponse)
    (exec : ToolCall → Except String String)
    (d1 d2 : List Msg → Except String CompletionResponse)
    (parseArgs : String → Except String String)
    (callTool : String → String → Except String String)
    (msgs0 msgsq : List Msg) (input q : String) :
    (chat c1 c2 exec msgs0 input).requests.length ≤ 2 ∧
    (∀ tc ∈ (chat c1 c2 exec msgs0 input).execs,
      tc ∈ (c1 (msgs0 ++ [Msg.user input])).tool_calls.getD []) ∧
    (optListTruthy (c1 (msgs0 ++ [Msg.user input])).tool_calls = true →
      (chat c1 c2 exec msgs0 input).answer =
        (c2 (chatReq2 c1 exec msgs0 input)).content.getD "") ∧
    (process_query d1 d2 parseArgs callTool msgsq q).1.requests.length ≤ 2 ∧
    (∀ e ∈ (process_query d1 d2 parseArgs callTool msgsq q).1.execs,
      e.1 ∈ (pqFirstToolCalls d1 msgsq q).map ToolCall.name) := by
  have hpq := pqTry_requests_execs d1 d2 parseArgs callTool (pqInit msgsq q)
  refine ⟨?_, ?_, ?_, ?_, ?_⟩
  · by_cases htc : optListTruthy (c1 (msgs0 ++ [Msg.user input])).tool_calls
    · rw [chat_eq_of_truthy c1 c2 exec msgs0 input htc]
      simp
    · rw [chat_eq_of_falsy c1 c2 exec msgs0 input (by simpa using htc)]
      simp
  · intro tc htcmem
    by_cases htc : optListTruthy (c1 (msgs0 ++ [Msg.user input])).tool_calls
    · rw [chat_eq_of_truthy c1 c2 exec msgs0 input htc] at htcmem
      simp only at htcmem
      rw [handle_tool_calls_eq] at htcmem
      exact (List.filter_sublist _).subset htcmem
    · rw [chat_eq_of_falsy c1 c2 exec msgs0 input (by simpa using htc)] at htcmem
      simp at htcmem
  · intro htc
    rw [chat_eq_of_truthy c1 c2 exec msgs0 input htc]
  · have h1 := hpq.1
    rw [process_query]
    simp only [pqFinal_requests]
    simpa [pqInit] using h1
  · intro e he
    rw [process_query] at he
    simp only [pqFinal_execs] at he
    rcases hpq.2 e he with hl | hr
    · simp [pqInit] at hl
    · exact hr

/-- C4 witness: a concrete turn whose second response again requests a tool
call: two requests are made, only the first batch's call is executed, and
the answer is the second response's text. -/
theorem C4_round_cap_witness :
    (chat (fun _ => ⟨some "", some [⟨"c1", "generate_image", "\x7b\x7d"⟩]⟩)
        (fun _ => ⟨some "partial", some [⟨"c9", "generate_image", "\x7b\x7d"⟩]⟩)
        (fun _ => .ok "img.png") [] "hi").answer = "partial" ∧
    (chat (fun _ => ⟨some "", some [⟨"c1", "generate_image", "\x7b\x7d"⟩]⟩)
        (fun _ => ⟨some "partial", some [⟨"c9", "generate_image", "\x7b\x7d"⟩]⟩)
        (fun _ => .ok "img.png") [] "hi").requests.length ≤ 2 ∧
    ∀ tc ∈ (chat (fun _ => ⟨some "", some [⟨"c1", "generate_image", "\x7b\x7d"⟩]⟩)
        (fun _ => ⟨some "partial", some [⟨"c9", "generate_image", "\x7b\x7d"⟩]⟩)
        (fun _ => .ok "img.png") [] "hi").execs,
      tc ∈ [(⟨"c1", "generate_image", "\x7b\x7d"⟩ : ToolCall)] := by
  have h := C4_round_cap
    (fun _ => ⟨some "", some [⟨"c1", "generate_image", "\x7b\x7d"⟩]⟩)
    (fun _ => ⟨some "partial", some [⟨"c9", "generate_image", "\x7b\x7d"⟩]⟩)
    (fun _ => .ok "img.png")
    (fun _ => .error "unused") (fun _ => .error "unused") (fun s => .ok s)
    (fun _ _ => .ok "r") [] [] "hi" "q"
  refine ⟨?_, h.1, ?_⟩
  · have := h.2.2.1 (by decide)
    simpa using this
  · intro tc htcmem
    exact h.2.1 tc htcmem

/-- C5 counterexample: a turn whose single tool call names an unregistered
tool appends only 3 new messages (user, assistant-with-call, final
assistant answer) — there is no tool-result message — refuting the claim
that any one-call turn followed by a plain answer appends exactly 4. -/
theorem C5_counterexample :
    (chat (fun _ => ⟨some "", some [⟨"c1", "get_forecast", "\x7b\x7d"⟩]⟩)
        (fun _ => ⟨some "the forecast", none⟩) (fun _ => .ok "sunny") [] "Weather?").messages =
      [Msg.user "Weather?",
       Msg.assistant (some "") (some [⟨"c1", "get_forecast", "\x7b\x7d"⟩]),
       Msg.assistant (some "the forecast") none] := by
  decide

/-- C5 (amended): when the first response requests exactly one tool call
naming the registered tool `generate_image` and the second response is a
plain answer, the turn appends exactly 4 new messages — the user message,
the assistant message carrying the call, the tool-result with the matching
`tool_call_id`, and the final assistant answer — and `chat` returns the
second response's text. -/
theorem C5_amended_single_registered_call (c1 c2 : List Msg → CompletionResponse)
    (exec : ToolCall → Except String String) (msgs0 : List Msg) (input : String) (tc : ToolCall)
    (h1 : (c1 (msgs0 ++ [Msg.user input])).tool_calls = some [tc])
    (h2 : tc.name = "generate_image")
    (h3 : (c2 (chatReq2 c1 exec msgs0 input)).tool_calls = none) :
    (chat c1 c2 exec msgs0 input).messages =
      msgs0 ++ [Msg.user input,
        Msg.assistant (c1 (msgs0 ++ [Msg.user input])).content (some [tc]),
        genImageResult exec tc,
        Msg.assistant (c2 (chatReq2 c1 exec msgs0 input)).content none] ∧
    toolIdOf (genImageResult exec tc) = some tc.id ∧
    (chat c1 c2 exec msgs0 input).answer =
      (c2 (chatReq2 c1 exec msgs0 input)).content.getD "" := by
  have htc : optListTruthy (c1 (msgs0 ++ [Msg.user input])).tool_calls = true := by
    rw [h1]
    rfl
  have hreq : chatReq2 c1 exec msgs0 input =
      msgs0 ++ [Msg.user input] ++
        [Msg.assistant (c1 (msgs0 ++ [Msg.user input])).content (some [tc])] ++
        [genImageResult exec tc] := by
    unfold chatReq2
    rw [h1]
    simp only [Option.getD_some]
    rw [handle_tool_calls_eq]
    simp [h2]
  rw [chat_eq_of_truthy c1 c2 exec msgs0 input htc]
  refine ⟨?_, toolIdOf_genImageResult exec tc, rfl⟩
  simp only
  rw [h3, hreq]
  simp

/-- C5 witness: the concrete scenario of the spec with the in-process tool:
one call, a success payload, a plain second answer — 4 new messages and the
second response's text returned. -/
theorem C5_amended_witness :
    (chat (fun _ => ⟨some "", some [⟨"c1", "generate_image", "\x7b\x7d"⟩]⟩)
        (fun _ => ⟨some "here is your image", none⟩)
        (fun _ => .ok "img.png") [] "draw a cat").messages =
      [] ++ [Msg.user "draw a cat",
        Msg.assistant (some "") (some [⟨"c1", "generate_image", "\x7b\x7d"⟩]),
        genImageResult (fun _ => .ok "img.png") ⟨"c1", "generate_image", "\x7b\x7d"⟩,
        Msg.assistant (some "here is your image") none] ∧
    (chat (fun _ => ⟨some "", some [⟨"c1", "generate_image", "\x7b\x7d"⟩]⟩)
        (fun _ => ⟨some "here is your image", none⟩)
        (fun _ => .ok "img.png") [] "draw a cat").answer = "here is your image" := by
  have h := C5_amended_single_registered_call
    (fun _ => ⟨some "", some [⟨"c1", "generate_image", "\x7b\x7d"⟩]⟩)
    (fun _ => ⟨some "here is your image", none⟩)
    (fun _ => .ok "img.png") [] "draw a cat"
    ⟨"c1", "generate_image", "\x7b\x7d"⟩ rfl rfl rfl
  exact ⟨h.1, h.2.2⟩

/-- C7: tool calls of a batch are executed sequentially in batch order and
their results are appended in the same order.  In `ChatSession`, the
dispatch trace and the result list of `handle_tool_calls` are exactly the
`generate_image`-named calls of the batch, in batch order; in `MCPClient`,
a tool loop that completes appends one tool message per call, ids in batch
order, and invokes `call_tool` once per call in batch order. -/
theorem C7_sequential_batch_order (exec : ToolCall → Except String String) (tcs : List ToolCall)
    (parseArgs : String → Except String String)
    (callTool : String → String → Except String String) (st st' : PQState) :
    handle_tool_calls exec tcs =
      ((tcs.filter (fun tc => decide (tc.name = "generate_image"))).map (genImageResult exec),
       tcs.filter (fun tc => decide (tc.name = "generate_image"))) ∧
    toolIds (handle_tool_calls exec tcs).1 =
      (tcs.filter (fun tc => decide (tc.name = "generate_image"))).map ToolCall.id ∧
    (toolLoop parseArgs callTool tcs st = .ok st' →
      toolIds st'.messages = toolIds st.messages ++ tcs.map ToolCall.id ∧
      st'.execs.map Prod.fst = st.execs.map Prod.fst ++ tcs.map ToolCall.name) := by
  refine ⟨handle_tool_calls_eq exec tcs, ?_, ?_⟩
  · rw [handle_tool_calls_eq]
    exact toolIds_map_genImageResult exec _
  · intro h
    obtain ⟨ha, hb, _⟩ := toolLoop_ok_toolIds parseArgs callTool tcs st st' h
    exact ⟨ha, hb⟩

/-- C7 witness: a concrete two-call batch executes and appends in order in
both loops. -/
theorem C7_sequential_batch_order_witness :
    handle_tool_calls (fun _ => .ok "p")
      [⟨"c1", "generate_image", "\x7b\x7d"⟩, ⟨"c2", "generate_image", "\x7b\x7d"⟩] =
      ([genImageResult (fun _ => .ok "p") ⟨"c1", "generate_image", "\x7b\x7d"⟩,
        genImageResult (fun _ => .ok "p") ⟨"c2", "generate_image", "\x7b\x7d"⟩],
       [⟨"c1", "generate_image", "\x7b\x7d"⟩, ⟨"c2", "generate_image", "\x7b\x7d"⟩]) ∧
    ∀ st', toolLoop (fun s => .ok s) (fun _ _ => .ok "r")
        [⟨"c1", "get_forecast", "\x7b\x7d"⟩, ⟨"c2", "get_alerts", "\x7b\x7d"⟩]
        { messages := [], final_text := [], requests := [], execs := [] } = .ok st' →
      toolIds st'.messages = ["c1", "c2"] := by
  constructor
  · have h := (C7_sequential_batch_order (fun _ => .ok "p")
      [⟨"c1", "generate_image", "\x7b\x7d"⟩, ⟨"c2", "generate_image", "\x7b\x7d"⟩]
      (fun s => .ok s) (fun _ _ => .ok "r")
      { messages := [], final_text := [], requests := [], execs := [] }
      { messages := [], final_text := [], requests := [], execs := [] }).1
    rw [h]
    decide
  · intro st' h
    have hc := (C7_sequential_batch_order (fun _ => .ok "p")
      [⟨"c1", "get_forecast", "\x7b\x7d"⟩, ⟨"c2", "get_alerts", "\x7b\x7d"⟩]
      (fun s => .ok s) (fun _ _ => .ok "r")
      { messages := [], final_text := [], requests := [], execs := [] } st').2.2 h
    simpa [toolIds] using hc.1

/-- C10: `process_query` is total on its embedded domain — the completion
requests, the argument parsing, and the tool executions all happen inside
the `try` block — and whenever that `try` body raises, the exception is
caught and the string returned to the caller is the accumulated output
followed by the line `Error processing query: <message>`. -/
theorem C10_exceptions_caught (c1 c2 : List Msg → Except String CompletionResponse)
    (parseArgs : String → Except String String)
    (callTool : String → String → Except String String)
    (msgs0 : List Msg) (q : String) (st : PQState) (e : String)
    (h : pqTry c1 c2 parseArgs callTool (pqInit msgs0 q) = .exn st e) :
    (process_query c1 c2 parseArgs callTool msgs0 q).2 =
      String.intercalate "\n" (st.final_text ++ ["Error processing query: " ++ e]) ∧
    (process_query c1 c2 parseArgs callTool msgs0 q).1.final_text =
      st.final_text ++ ["Error processing query: " ++ e] := by
  rw [process_query, h]
  exact ⟨rfl, rfl⟩

/-- C10 witness: a completion request that raises `boom` yields the single
output line `Error processing query: boom`. -/
theorem C10_exceptions_caught_witness :
    (process_query (fun _ => Except.error "boom") (fun _ => Except.error "x")
      (fun s => Except.ok s) (fun _ _ => Except.ok "r") [] "hi").2 =
      String.intercalate "\n"
        (([] : List String) ++ ["Error processing query: " ++ "boom"]) :=
  (C10_exceptions_caught (fun _ => Except.error "boom") (fun _ => Except.error "x")
    (fun s => Except.ok s) (fun _ _ => Except.ok "r") [] "hi"
    { messages := [Msg.user "hi"], final_text := [],
      requests := [[Msg.user "hi"]], execs := [] }
    "boom" (by decide)).1

/-- C8 counterexample: in the `MCPClient` REPL, the input `exit` is not a
command at all — it is processed as an ordinary query — so it does not
terminate the loop as the claim states. -/
theorem C8_counterexample :
    (chat_loop_iter "exit" []).1 = ReplAction.processQuery "exit" ∧
    (chat_loop_iter "exit" []).1 ≠ ReplAction.quit := by
  decide

/-- C8 (amended): in the `MCPClient` REPL, `quit` terminates the loop (but
`exit` is treated as a user turn), `clear` resets the history to empty,
`history` and `debug` print, and any other free text becomes a user turn;
in the `chat_with_gpt` REPL, `exit`, `quit`, and `bye` all terminate, there
is no `clear` command (that input becomes a user turn), and any other text
becomes a user turn. -/
theorem C8_amended_repl_commands :
    (∀ msgs, chat_loop_iter "quit" msgs = (ReplAction.quit, msgs)) ∧
    (∀ msgs, chat_loop_iter "clear" msgs = (ReplAction.cleared, [])) ∧
    (∀ msgs, chat_loop_iter "exit" msgs = (ReplAction.processQuery "exit", msgs)) ∧
    (∀ raw msgs,
      pyLower (pyStrip raw) ∉ (["quit", "clear", "history", "debug"] : List String) →
      chat_loop_iter raw msgs = (ReplAction.processQuery (pyStrip raw), msgs)) ∧
    mainLoopAction "exit" = ReplAction.quit ∧
    mainLoopAction "quit" = ReplAction.quit ∧
    mainLoopAction "bye" = ReplAction.quit ∧
    mainLoopAction "clear" = ReplAction.processQuery "clear" ∧
    (∀ s, pyLower s ∉ (["exit", "quit", "bye"] : List String) →
      mainLoopAction s = ReplAction.processQuery s) := by
  refine ⟨fun msgs => rfl, fun msgs => rfl, fun msgs => rfl, ?_, rfl, rfl, rfl, rfl, ?_⟩
  · intro raw msgs hraw
    simp only [List.mem_cons, List.not_mem_nil, or_false, not_or] at hraw
    obtain ⟨h1, h2, h3, h4⟩ := hraw
    unfold chat_loop_iter
    simp [h1, h2, h3, h4]
  · intro s hs
    simp only [List.mem_cons, List.not_mem_nil, or_false, not_or] at hs
    obtain ⟨h1, h2, h3⟩ := hs
    unfold mainLoopAction
    have hc : (["exit", "quit", "bye"] : List String).contains (pyLower s) = false := by
      simp [List.contains_iff_exists_mem_beq, h1, h2, h3]
    rw [hc]
    simp

/-- C8 witness: a free-text line is dispatched as a user turn in both
REPLs. -/
theorem C8_amended_repl_commands_witness :
    chat_loop_iter "hello there" [] = (ReplAction.processQuery "hello there", []) ∧
    mainLoopAction "hello there" = ReplAction.processQuery "hello there" :=
  ⟨C8_amended_repl_commands.2.2.2.1 "hello there" [] (by decide),
   C8_amended_repl_commands.2.2.2.2.2.2.2.2 "hello there" (by decide)⟩

end OnBehalf
